import Mathlib

/-!
Shallow embedding of the phonon density-of-states engine
(`pymatgen/phonon/dos.py`) and of the energy models
(`pymatgen/analysis/energy_models.py`).

Real-valued quantities are modelled as rationals (`ℚ`); the transcendental
functions appearing inside the thermodynamic integrands (`np.sinh`,
`np.tanh`, `np.log`) and the Gaussian smoothing kernel
(`scipy.ndimage.gaussian_filter1d`) are uninterpreted parameters: every
theorem below is proved for an arbitrary interpretation of them.
Fallible operations (Python exceptions: `ValueError`, `ZeroDivisionError`,
`KeyError`, `IndexError`) are modelled with `Option`, `none` standing for a
raised exception.
-/

/-- `scipy.constants.value("hertz-joule relationship") * scipy.constants.tera`:
`6.62607015e-34 * 1e12`, exactly representable as a rational. -/
def THZ_TO_J : ℚ := 662607015 / 10 ^ 30

/-- `scipy.constants.value("Boltzmann constant in Hz/K") / scipy.constants.tera`:
CODATA value `2.083661912e10 / 1e12`, exactly representable as a rational. -/
def BOLTZ_THZ_PER_K : ℚ := 2083661912 / 10 ^ 11

/-- `scipy.constants.Boltzmann`: `1.380649e-23`. -/
def BOLTZMANN : ℚ := 1380649 / 10 ^ 29

/-- `scipy.constants.Avogadro`: `6.02214076e23`. -/
def AVOGADRO : ℚ := 602214076 * 10 ^ 15

/-- `np.trapz(y, x=x)`: trapezoidal quadrature of the samples `y` against the
sample points `x`, `∑ (x[i+1] - x[i]) * (y[i] + y[i+1]) / 2`. -/
def trapz : List ℚ → List ℚ → ℚ
  | y0 :: y1 :: ys, x0 :: x1 :: xs => (x1 - x0) * (y0 + y1) / 2 + trapz (y1 :: ys) (x1 :: xs)
  | _, _ => 0

/-- The uninterpreted transcendental functions used by the integrands of
`PhononDos.cv`, `PhononDos.entropy`, `PhononDos.internal_energy` and
`PhononDos.helmholtz_free_energy` (`np.sinh`, `np.tanh`, `np.log`). -/
structure RealFns where
  sinh : ℚ → ℚ
  tanh : ℚ → ℚ
  log : ℚ → ℚ

/-- Modelled from the spec: a crystal site. `pymatgen.core.sites.Site` is an
out-of-scope collaborator, used only as a hashable identity for the `pdos`
mapping of `CompletePhononDos`; the tag carries that identity. -/
structure Site where
  tag : ℕ
deriving DecidableEq

namespace Core

/-- Modelled from the spec: the composition of a structure, an opaque provider
of the total atom count and the reduced-formula atom count that the
thermodynamic methods use to compute `formula_units`. -/
structure Composition where
  num_atoms : ℚ
  reduced_num_atoms : ℚ
deriving DecidableEq

/-- Modelled from the spec: `pymatgen.core.structure.Structure` is an
out-of-scope collaborator, an opaque provider of its site list (site order and
Python truthiness, which is `len(structure) > 0`) and of its composition. -/
structure Structure where
  sites : List Site
  composition : Composition
deriving DecidableEq

end Core

/-- `structure.composition.num_atoms / structure.composition.reduced_composition.num_atoms`,
the quantity the five thermodynamic methods divide by when a structure is
supplied. -/
def formula_units (s : Core.Structure) : ℚ :=
  s.composition.num_atoms / s.composition.reduced_num_atoms

/-- The tail `if structure: ... /= formula_units` of each thermodynamic method:
Python truthiness of a `Structure` is `len(structure) > 0`, so a `None` or
empty structure leaves the raw per-unit-cell value untouched. -/
def applyStructure (st : Option Core.Structure) (v : ℚ) : ℚ :=
  match st with
  | none => v
  | some s => if s.sites.isEmpty then v else v / formula_units s

/-- `np.searchsorted(a, v)` (side `left`): binary search for the insertion
point, `while lo < hi: mid = (lo+hi)//2; if a[mid] < v: lo = mid+1 else hi = mid`.
Structural recursion on a fuel argument; each step shrinks `hi - lo`, so
`fuel = hi - lo` suffices (`bisectLeft_fuel` below). Out-of-range reads
default to `0`, which the search never performs while `hi ≤ a.length`. -/
def bisectLeft (a : List ℚ) (v : ℚ) : ℕ → ℕ → ℕ → ℕ
  | fuel + 1, lo, hi =>
    if lo < hi then
      if a.getD ((lo + hi) / 2) 0 < v then bisectLeft a v fuel ((lo + hi) / 2 + 1) hi
      else bisectLeft a v fuel lo ((lo + hi) / 2)
    else lo
  | 0, lo, _ => lo

/-- `np.searchsorted(a, v)` over the whole array. -/
def searchsorted (a : List ℚ) (v : ℚ) : ℕ :=
  bisectLeft a v a.length 0 a.length

/-- The phonon density of states: a frequency axis (THz) and matching density
values. -/
structure PhononDos where
  frequencies : List ℚ
  densities : List ℚ
deriving DecidableEq

namespace PhononDos

/-- `PhononDos.ind_zero_freq`: `np.searchsorted(self.frequencies, 0)`, raising
(`none`) when the insertion point falls past the end of the array ("No
positive frequencies found"). -/
def ind_zero_freq (d : PhononDos) : Option ℕ :=
  let ind := searchsorted d.frequencies 0
  if d.frequencies.length ≤ ind then none else some ind

/-- `PhononDos._positive_frequencies`: `self.frequencies[self.ind_zero_freq:]`. -/
def positive_frequencies (d : PhononDos) : Option (List ℚ) :=
  d.ind_zero_freq.map fun ind => d.frequencies.drop ind

/-- `PhononDos._positive_densities`: `self.densities[self.ind_zero_freq:]`. -/
def positive_densities (d : PhononDos) : Option (List ℚ) :=
  d.ind_zero_freq.map fun ind => d.densities.drop ind

/-- `PhononDos.zero_point_energy`:
`0.5 * np.trapz(freqs * dens, x=freqs) * THZ_TO_J * Avogadro` over the
positive-frequency sub-arrays, divided by the formula units when a (truthy)
structure is supplied. -/
def zero_point_energy (d : PhononDos) (st : Option Core.Structure) : Option ℚ :=
  match d.ind_zero_freq with
  | none => none
  | some ind =>
    let freqs := d.frequencies.drop ind
    let dens := d.densities.drop ind
    let zpe := 1 / 2 * trapz (List.zipWith (· * ·) freqs dens) freqs
    let zpe := zpe * (THZ_TO_J * AVOGADRO)
    some (applyStructure st zpe)

/-- `PhononDos.cv`: `0` at `t = 0`, otherwise
`np.trapz(wd2kt**2 * csch2(wd2kt) * dens, x=freqs) * Boltzmann * Avogadro`
with `wd2kt = freqs / (2 * BOLTZ_THZ_PER_K * t)` and `csch2 x = 1 / sinh(x)^2`,
over the positive-frequency sub-arrays. -/
def cv (fns : RealFns) (d : PhononDos) (t : ℚ) (st : Option Core.Structure) : Option ℚ :=
  if t = 0 then some 0
  else
    match d.ind_zero_freq with
    | none => none
    | some ind =>
      let freqs := d.frequencies.drop ind
      let dens := d.densities.drop ind
      let csch2 := fun x => 1 / (fns.sinh x) ^ 2
      let wd2kt := freqs.map fun f => f / (2 * BOLTZ_THZ_PER_K * t)
      let v := trapz (List.zipWith (fun x ρ => x ^ 2 * csch2 x * ρ) wd2kt dens) freqs
      let v := v * (BOLTZMANN * AVOGADRO)
      some (applyStructure st v)

/-- `PhononDos.entropy`: `0` at `t = 0`, otherwise
`np.trapz((wd2kt / tanh(wd2kt) - log(2 sinh(wd2kt))) * dens, x=freqs)
 * Boltzmann * Avogadro` over the positive-frequency sub-arrays. -/
def entropy (fns : RealFns) (d : PhononDos) (t : ℚ) (st : Option Core.Structure) : Option ℚ :=
  if t = 0 then some 0
  else
    match d.ind_zero_freq with
    | none => none
    | some ind =>
      let freqs := d.frequencies.drop ind
      let dens := d.densities.drop ind
      let wd2kt := freqs.map fun f => f / (2 * BOLTZ_THZ_PER_K * t)
      let v := trapz
        (List.zipWith (fun x ρ => (x * (1 / fns.tanh x) - fns.log (2 * fns.sinh x)) * ρ) wd2kt dens)
        freqs
      let v := v * (BOLTZMANN * AVOGADRO)
      some (applyStructure st v)

/-- `PhononDos.internal_energy`: `zero_point_energy(structure)` at `t = 0`,
otherwise `np.trapz(freqs / tanh(wd2kt) * dens, x=freqs) / 2 * THZ_TO_J * Avogadro`
over the positive-frequency sub-arrays. -/
def internal_energy (fns : RealFns) (d : PhononDos) (t : ℚ) (st : Option Core.Structure) :
    Option ℚ :=
  if t = 0 then d.zero_point_energy st
  else
    match d.ind_zero_freq with
    | none => none
    | some ind =>
      let freqs := d.frequencies.drop ind
      let dens := d.densities.drop ind
      let wd2kt := freqs.map fun f => f / (2 * BOLTZ_THZ_PER_K * t)
      let v := trapz
        (List.zipWith (· * ·) (List.zipWith (fun f x => f * (1 / fns.tanh x)) freqs wd2kt) dens)
        freqs / 2
      let v := v * (THZ_TO_J * AVOGADRO)
      some (applyStructure st v)

/-- `PhononDos.helmholtz_free_energy`: `zero_point_energy(structure)` at `t = 0`,
otherwise `np.trapz(log(2 sinh(wd2kt)) * dens, x=freqs) * Boltzmann * Avogadro * t`
over the positive-frequency sub-arrays. -/
def helmholtz_free_energy (fns : RealFns) (d : PhononDos) (t : ℚ) (st : Option Core.Structure) :
    Option ℚ :=
  if t = 0 then d.zero_point_energy st
  else
    match d.ind_zero_freq with
    | none => none
    | some ind =>
      let freqs := d.frequencies.drop ind
      let dens := d.densities.drop ind
      let wd2kt := freqs.map fun f => f / (2 * BOLTZ_THZ_PER_K * t)
      let v := trapz (List.zipWith (fun x ρ => fns.log (2 * fns.sinh x) * ρ) wd2kt dens) freqs
      let v := v * (BOLTZMANN * AVOGADRO * t)
      some (applyStructure st v)

/-- `PhononDos.__add__`: requires elementwise-equal frequency axes
(`all(np.equal(...))`, a `ValueError` — `none` — otherwise) and returns a new
`PhononDos` with the summed densities. -/
def add (self other : PhononDos) : Option PhononDos :=
  if self.frequencies = other.frequencies then
    some ⟨self.frequencies, List.zipWith (· + ·) self.densities other.densities⟩
  else none

/-- `PhononDos.__radd__(self, other)`: delegates to `self.__add__(other)`. -/
def radd (self other : PhononDos) : Option PhononDos :=
  self.add other

/-- `PhononDos.get_smeared_densities(sigma)`: the mean consecutive frequency
spacing is `sum(diff) / len(diff)`; with fewer than two frequency points
`diff` is empty and the integer division `sum([]) / 0` raises
`ZeroDivisionError` (`none`). The Gaussian kernel `gaussian_filter1d` is an
uninterpreted parameter. -/
def get_smeared_densities (gaussianFilter1d : List ℚ → ℚ → List ℚ) (d : PhononDos)
    (sigma : ℚ) : Option (List ℚ) :=
  let diff := List.zipWith (· - ·) d.frequencies.tail d.frequencies
  if diff.length = 0 then none
  else
    let avg_diff := diff.sum / (diff.length : ℚ)
    some (gaussianFilter1d d.densities (sigma / avg_diff))

/-- The dict produced by `PhononDos.as_dict` (the constant `@module`/`@class`
tags omitted). -/
structure Dict where
  frequencies : List ℚ
  densities : List ℚ

/-- `PhononDos.as_dict`. -/
def as_dict (d : PhononDos) : Dict :=
  ⟨d.frequencies, d.densities⟩

/-- `PhononDos.from_dict`. -/
def from_dict (dct : Dict) : PhononDos :=
  ⟨dct.frequencies, dct.densities⟩

end PhononDos

/-- A per-site density lookup (`self.pdos[at]`): first entry of the
association list whose key is the site, `none` for a `KeyError`. -/
def pdosFind (pdos : List (Site × List ℚ)) (site : Site) : Option (List ℚ) :=
  (pdos.find? fun p => decide (p.1 = site)).map Prod.snd

/-- The loop `for at in self.structure: dct["pdos"].append(list(self.pdos[at]))`
of `CompletePhononDos.as_dict`: look every site up in the pdos mapping,
`none` if any lookup raises `KeyError`. -/
def lookupAll (pdos : List (Site × List ℚ)) : List Site → Option (List (List ℚ))
  | [] => some []
  | s :: rest =>
    match pdosFind pdos s with
    | none => none
    | some v => (lookupAll pdos rest).map (v :: ·)

/-- The total DOS together with per-site projected densities. `pdos` models
the Python dict `{Site: densities}` as an association list in insertion
order. -/
structure CompletePhononDos where
  struct : Core.Structure
  frequencies : List ℚ
  densities : List ℚ
  pdos : List (Site × List ℚ)

namespace CompletePhononDos

/-- `CompletePhononDos.__init__(structure, total_dos, pdoses)`: copies the
frequency and density arrays out of the total DOS and stores the structure
reference and the pdos mapping. -/
def ofTotal (struct : Core.Structure) (total_dos : PhononDos)
    (pdoses : List (Site × List ℚ)) : CompletePhononDos :=
  ⟨struct, total_dos.frequencies, total_dos.densities, pdoses⟩

/-- The total DOS held by a `CompletePhononDos` (the attributes set by
`PhononDos.__init__` through `super().__init__`). -/
def toPhononDos (cd : CompletePhononDos) : PhononDos :=
  ⟨cd.frequencies, cd.densities⟩

/-- `+` on two `CompletePhononDos`: Python dispatches to the inherited
`PhononDos.__add__`, which reads only the frequency and density attributes
and constructs a plain `PhononDos`. -/
def add (self other : CompletePhononDos) : Option PhononDos :=
  self.toPhononDos.add other.toPhononDos

/-- The dict produced by `CompletePhononDos.as_dict` (constant
`@module`/`@class` tags omitted; the structure's own dict is modelled by the
structure itself, its serialization being an out-of-scope collaborator that
round-trips). -/
structure Dict where
  struct : Core.Structure
  frequencies : List ℚ
  densities : List ℚ
  pdos : List (List ℚ)

/-- `CompletePhononDos.as_dict`: serializes the per-site densities in the
structure's site order (`if len(self.pdos) > 0: for at in self.structure: ...`);
a site missing from the pdos mapping raises `KeyError` (`none`). -/
def as_dict (cd : CompletePhononDos) : Option Dict :=
  let pdosLists : Option (List (List ℚ)) :=
    if cd.pdos.length > 0 then lookupAll cd.pdos cd.struct.sites else some []
  pdosLists.map fun pl => ⟨cd.struct, cd.frequencies, cd.densities, pl⟩

/-- `CompletePhononDos.from_dict`: rebuilds the total DOS, the structure, and
the pdos mapping by zipping the structure's sites with the serialized
density lists positionally (`dict(zip(struct, dct["pdos"]))`). -/
def from_dict (dct : Dict) : CompletePhononDos :=
  { struct := dct.struct
    frequencies := dct.frequencies
    densities := dct.densities
    pdos := dct.struct.sites.zip dct.pdos }

end CompletePhononDos

/-- `getattr(specie, "spin", 0)`: the spin attribute of a site's species,
defaulting to `0` when the species has none. The optional attribute is
modelled as an `Option ℚ`. -/
def spinOf (spin : Option ℚ) : ℚ :=
  spin.getD 0

/-- Modelled from the spec: one entry of a `structure.get_all_neighbors(r)`
neighbor list — the neighboring site's species' optional spin attribute and
the neighbor distance `nn_distance`. -/
structure Neighbor where
  spin : Option ℚ
  nn_distance : ℚ

/-- Modelled from the spec: the inputs `IsingModel.get_energy` reads from its
structure argument — per-site optional spins (`structure[idx].specie.spin`)
and the radius-bounded neighbor enumeration returned by
`structure.get_all_neighbors(r=max_radius)`, one list per site. -/
structure IsingStructure where
  spins : List (Option ℚ)
  all_nn : List (List Neighbor)

/-- `IsingModel(j, max_radius)`: coupling parameter and interaction radius. -/
structure IsingModel where
  j : ℚ
  max_radius : ℚ

/-- `IsingModel.get_energy`: the double loop
`for idx, nns in enumerate(all_nn): for nn in nns:
   energy += self.j * s1 * getattr(nn.specie, "spin", 0) / nn.nn_distance**2`
with `s1 = getattr(structure[idx].specie, "spin", 0)`. -/
def IsingModel.get_energy (m : IsingModel) (st : IsingStructure) : ℚ :=
  ((st.spins.zip st.all_nn).map fun p =>
    (p.2.map fun nn => m.j * spinOf p.1 * spinOf nn.spin / nn.nn_distance ^ 2).sum).sum

/-- The claim's reading of the Ising energy: the flat sum over every ordered
pair `(i, j)` with `j` listed as a neighbor of `i`, of
`coupling * spin(i) * spin(j) / distance(i, j)^2`. -/
def isingPairSum (m : IsingModel) (st : IsingStructure) : ℚ :=
  (((st.spins.zip st.all_nn).flatMap fun p => p.2.map fun nn => (p.1, nn)).map
    fun q => m.j * spinOf q.1 * spinOf q.2.spin / q.2.nn_distance ^ 2).sum

/-! ### Lemmas about the binary search performed by `np.searchsorted` -/

/-- On an ascending list, reading with default `0` below the length is
monotone. -/
lemma sorted_getD_le {a : List ℚ} (hs : a.Sorted (· ≤ ·)) {i j : ℕ} (hij : i ≤ j)
    (hj : j < a.length) : a.getD i 0 ≤ a.getD j 0 := by
  have hi : i < a.length := Nat.lt_of_le_of_lt hij hj
  rw [List.getD_eq_getElem a 0 hi, List.getD_eq_getElem a 0 hj]
  rcases Nat.lt_or_ge i j with h | h
  · exact (List.pairwise_iff_getElem.mp hs) i j hi hj h
  · have hij' : i = j := Nat.le_antisymm hij h
    subst hij'
    exact le_refl _

/-- Loop invariant of the binary search: on an ascending list, starting from a
window whose left part is `< v` and whose right part is `≥ v`, the search
lands on the boundary. The fuel only needs to dominate the window width. -/
lemma bisectLeft_invariant (a : List ℚ) (v : ℚ) (hs : a.Sorted (· ≤ ·)) (fuel : ℕ) :
    ∀ lo hi, hi - lo ≤ fuel → lo ≤ hi → hi ≤ a.length →
      (∀ k, k < lo → a.getD k 0 < v) →
      (∀ k, hi ≤ k → k < a.length → ¬ a.getD k 0 < v) →
      lo ≤ bisectLeft a v fuel lo hi ∧ bisectLeft a v fuel lo hi ≤ hi ∧
        (∀ k, k < bisectLeft a v fuel lo hi → a.getD k 0 < v) ∧
        ∀ k, bisectLeft a v fuel lo hi ≤ k → k < a.length → ¬ a.getD k 0 < v := by
  induction fuel with
  | zero =>
    intro lo hi hfuel hlohi _ hlow hhigh
    have heq : lo = hi := by omega
    subst heq
    exact ⟨le_refl _, le_refl _, hlow, hhigh⟩
  | succ fuel ih =>
    intro lo hi hfuel hlohi hhil hlow hhigh
    simp only [bisectLeft]
    by_cases hlt : lo < hi
    · rw [if_pos hlt]
      have hmidhi : (lo + hi) / 2 < hi := by omega
      have hmidlen : (lo + hi) / 2 < a.length := Nat.lt_of_lt_of_le hmidhi hhil
      by_cases hv : a.getD ((lo + hi) / 2) 0 < v
      · rw [if_pos hv]
        have h := ih ((lo + hi) / 2 + 1) hi (by omega) (by omega) hhil
          (fun k hk => by
            rcases Nat.lt_or_ge k lo with h1 | h1
            · exact hlow k h1
            · exact lt_of_le_of_lt (sorted_getD_le hs (by omega) hmidlen) hv)
          hhigh
        exact ⟨le_trans (by omega) h.1, h.2.1, h.2.2.1, h.2.2.2⟩
      · rw [if_neg hv]
        have h := ih lo ((lo + hi) / 2) (by omega) (by omega) (le_of_lt hmidlen) hlow
          (fun k hk hklen =>
            not_lt.mpr (le_trans (not_lt.mp hv) (sorted_getD_le hs hk hklen)))
        exact ⟨h.1, le_trans h.2.1 (le_of_lt hmidhi), h.2.2.1, h.2.2.2⟩
    · rw [if_neg hlt]
      have heq : lo = hi := by omega
      subst heq
      exact ⟨le_refl _, le_refl _, hlow, hhigh⟩

/-- The insertion point returned by `np.searchsorted` on an ascending list:
everything left of it is `< v`, everything from it on is `≥ v`. -/
lemma searchsorted_spec (a : List ℚ) (v : ℚ) (hs : a.Sorted (· ≤ ·)) :
    searchsorted a v ≤ a.length ∧
      (∀ k, k < searchsorted a v → a.getD k 0 < v) ∧
      ∀ k, searchsorted a v ≤ k → k < a.length → ¬ a.getD k 0 < v := by
  have h := bisectLeft_invariant a v hs a.length 0 a.length (by omega) (by omega) (le_refl _)
    (fun k hk => absurd hk (Nat.not_lt_zero k))
    (fun k hk hklen => absurd (Nat.lt_of_le_of_lt hk hklen) (lt_irrefl _))
  exact ⟨h.2.1, h.2.2.1, h.2.2.2⟩

namespace PhononDos

/-- With only negative frequencies the insertion point falls past the end of
the array and `ind_zero_freq` raises. -/
lemma ind_zero_freq_eq_none (d : PhononDos) (hs : d.frequencies.Sorted (· ≤ ·))
    (hneg : ∀ f ∈ d.frequencies, f < 0) : d.ind_zero_freq = none := by
  have h := searchsorted_spec d.frequencies 0 hs
  rw [ind_zero_freq]
  rcases Nat.lt_or_ge (searchsorted d.frequencies 0) d.frequencies.length with hlt | hge
  · exfalso
    apply h.2.2 (searchsorted d.frequencies 0) (le_refl _) hlt
    rw [List.getD_eq_getElem d.frequencies 0 hlt]
    exact hneg _ (d.frequencies.getElem_mem hlt)
  · simp only [if_pos hge]

/-- With at least one non-negative frequency on an ascending axis,
`ind_zero_freq` succeeds. -/
lemma ind_zero_freq_eq_some (d : PhononDos) (hs : d.frequencies.Sorted (· ≤ ·))
    {f : ℚ} (hf : f ∈ d.frequencies) (hf0 : 0 ≤ f) :
    d.ind_zero_freq = some (searchsorted d.frequencies 0) := by
  have h := searchsorted_spec d.frequencies 0 hs
  rw [ind_zero_freq]
  rcases Nat.lt_or_ge (searchsorted d.frequencies 0) d.frequencies.length with hlt | hge
  · simp only [if_neg (Nat.not_le_of_lt hlt)]
  · exfalso
    obtain ⟨k, hk, hkf⟩ := List.getElem_of_mem hf
    have := h.2.1 k (Nat.lt_of_lt_of_le hk hge)
    rw [List.getD_eq_getElem d.frequencies 0 hk, hkf] at this
    exact absurd hf0 (not_le.mpr this)

/-- `ind_zero_freq`, when it succeeds on an ascending axis, is the first index
whose frequency is `≥ 0`. -/
lemma ind_zero_freq_first (d : PhononDos) (hs : d.frequencies.Sorted (· ≤ ·))
    {ind : ℕ} (h : d.ind_zero_freq = some ind) :
    ind < d.frequencies.length ∧ 0 ≤ d.frequencies.getD ind 0 ∧
      ∀ k, k < ind → d.frequencies.getD k 0 < 0 := by
  have hspec := searchsorted_spec d.frequencies 0 hs
  rw [ind_zero_freq] at h
  by_cases hge : d.frequencies.length ≤ searchsorted d.frequencies 0
  · rw [if_pos hge] at h
    exact absurd h (by simp)
  · rw [if_neg hge] at h
    obtain rfl : searchsorted d.frequencies 0 = ind := by injection h
    have hlt : searchsorted d.frequencies 0 < d.frequencies.length := Nat.lt_of_not_le hge
    exact ⟨hlt, not_lt.mp (hspec.2.2 _ (le_refl _) hlt), hspec.2.1⟩

end PhononDos

/-! ### Lemmas about the pdos association list -/

/-- A key present in an association list with pairwise-distinct keys is found
together with its value. -/
lemma find?_eq_some_of_mem (l : List (Site × List ℚ)) {k : Site} {v : List ℚ}
    (hmem : (k, v) ∈ l) (hnd : (l.map Prod.fst).Nodup) :
    l.find? (fun p => decide (p.1 = k)) = some (k, v) := by
  induction l with
  | nil => simp at hmem
  | cons a t ih =>
    rw [List.map_cons, List.nodup_cons] at hnd
    rcases List.mem_cons.mp hmem with h | h
    · subst h
      rw [List.find?_cons_of_pos _ (by simp)]
    · have hk : k ∈ t.map Prod.fst := List.mem_map.mpr ⟨(k, v), h, rfl⟩
      have hne : ¬ a.1 = k := fun heq => hnd.1 (heq ▸ hk)
      rw [List.find?_cons_of_neg _ (by simpa using hne)]
      exact ih h hnd.2

/-- Looking every key of a sublist of a distinct-key association list back up
recovers exactly the stored values. -/
lemma lookupAll_eq_of_keys (pdos : List (Site × List ℚ))
    (hnd : (pdos.map Prod.fst).Nodup) :
    ∀ sub : List (Site × List ℚ), (∀ p ∈ sub, p ∈ pdos) →
      lookupAll pdos (sub.map Prod.fst) = some (sub.map Prod.snd) := by
  intro sub
  induction sub with
  | nil => intro _; rfl
  | cons a t ih =>
    intro hsub
    have ha : (a.1, a.2) ∈ pdos := by
      have := hsub a (List.mem_cons_self a t)
      simpa using this
    simp [List.map_cons, lookupAll, pdosFind,
      find?_eq_some_of_mem pdos ha hnd,
      ih fun p hp => hsub p (List.mem_cons_of_mem a hp)]

/-- Zipping the key and value projections of a pair list recovers the list. -/
lemma zip_map_fst_snd' {α β : Type} : ∀ l : List (α × β),
    (l.map Prod.fst).zip (l.map Prod.snd) = l := by
  intro l
  induction l with
  | nil => rfl
  | cons a t ih => simp [ih]

/-! ### The claims -/

/-- C2: at temperature `T = 0`, with any optional structure argument,
`cv` returns `0`, `entropy` returns `0`, and `internal_energy` and
`helmholtz_free_energy` return `zero_point_energy` with the same structure
argument passed through. -/
theorem spec_C2_zero_temperature_limits (fns : RealFns) (d : PhononDos)
    (st : Option Core.Structure) (_hpos : ∃ f ∈ d.frequencies, 0 ≤ f) :
    d.cv fns 0 st = some 0 ∧ d.entropy fns 0 st = some 0 ∧
      d.internal_energy fns 0 st = d.zero_point_energy st ∧
      d.helmholtz_free_energy fns 0 st = d.zero_point_energy st := by
  refine ⟨?_, ?_, ?_, ?_⟩ <;>
    simp [PhononDos.cv, PhononDos.entropy, PhononDos.internal_energy,
      PhononDos.helmholtz_free_energy]

/-- Witness for C2 at a concrete DOS. -/
theorem spec_C2_witness :
    (⟨[-1, 1], [2, 3]⟩ : PhononDos).cv ⟨id, id, id⟩ 0 none = some 0 ∧
      (⟨[-1, 1], [2, 3]⟩ : PhononDos).entropy ⟨id, id, id⟩ 0 none = some 0 ∧
      (⟨[-1, 1], [2, 3]⟩ : PhononDos).internal_energy ⟨id, id, id⟩ 0 none =
        (⟨[-1, 1], [2, 3]⟩ : PhononDos).zero_point_energy none ∧
      (⟨[-1, 1], [2, 3]⟩ : PhononDos).helmholtz_free_energy ⟨id, id, id⟩ 0 none =
        (⟨[-1, 1], [2, 3]⟩ : PhononDos).zero_point_energy none :=
  spec_C2_zero_temperature_limits ⟨id, id, id⟩ ⟨[-1, 1], [2, 3]⟩ none (by decide)

/-- C3: each of the five thermodynamic methods, given a (nonempty, hence
truthy) structure, returns the structureless value divided by
`formula_units`. -/
theorem spec_C3_formula_units_division (fns : RealFns) (d : PhononDos) (t : ℚ)
    (s : Core.Structure) (hs : s.sites ≠ []) :
    d.cv fns t (some s) = (d.cv fns t none).map (· / formula_units s) ∧
      d.entropy fns t (some s) = (d.entropy fns t none).map (· / formula_units s) ∧
      d.internal_energy fns t (some s) =
        (d.internal_energy fns t none).map (· / formula_units s) ∧
      d.helmholtz_free_energy fns t (some s) =
        (d.helmholtz_free_energy fns t none).map (· / formula_units s) ∧
      d.zero_point_energy (some s) =
        (d.zero_point_energy none).map (· / formula_units s) := by
  have happ : ∀ v, applyStructure (some s) v = v / formula_units s := by
    intro v
    simp [applyStructure, List.isEmpty_iff, hs]
  have hnone : ∀ v, applyStructure none v = v := fun _ => rfl
  refine ⟨?_, ?_, ?_, ?_, ?_⟩ <;>
    · by_cases ht : t = 0 <;> cases h : d.ind_zero_freq <;>
        simp [PhononDos.cv, PhononDos.entropy, PhononDos.internal_energy,
          PhononDos.helmholtz_free_energy, PhononDos.zero_point_energy, ht, h,
          happ, hnone, zero_div]

/-- Witness for C3 at a concrete DOS, temperature and structure. -/
theorem spec_C3_witness :
    (⟨[0, 1], [1, 1]⟩ : PhononDos).zero_point_energy (some ⟨[⟨0⟩], ⟨2, 1⟩⟩) =
      ((⟨[0, 1], [1, 1]⟩ : PhononDos).zero_point_energy none).map
        (· / formula_units ⟨[⟨0⟩], ⟨2, 1⟩⟩) :=
  (spec_C3_formula_units_division ⟨id, id, id⟩ ⟨[0, 1], [1, 1]⟩ 300 ⟨[⟨0⟩], ⟨2, 1⟩⟩
    (by decide)).2.2.2.2

/-- C4: on identical frequency axes, `__add__` returns a new `PhononDos` with
the first operand's frequency axis and the elementwise-summed densities; the
sum is commutative, and `__radd__` agrees with the defined direction. -/
theorem spec_C4_addition (a b : PhononDos) (h : a.frequencies = b.frequencies) :
    a.add b = some ⟨a.frequencies, List.zipWith (· + ·) a.densities b.densities⟩ ∧
      a.add b = b.add a ∧ b.radd a = a.add b := by
  have hcomm : List.zipWith (· + ·) a.densities b.densities
      = List.zipWith (· + ·) b.densities a.densities :=
    List.zipWith_comm_of_comm _ (fun x y => add_comm x y) _ _
  refine ⟨by simp [PhononDos.add, h], ?_, ?_⟩
  · simp [PhononDos.add, h, hcomm]
  · simp [PhononDos.radd, PhononDos.add, h, hcomm]

/-- Witness for C4 at concrete DOS pairs. -/
theorem spec_C4_witness :
    (⟨[0, 1], [1, 2]⟩ : PhononDos).add ⟨[0, 1], [3, 4]⟩ =
      some ⟨[0, 1], List.zipWith (· + ·) [1, 2] [3, 4]⟩ :=
  (spec_C4_addition ⟨[0, 1], [1, 2]⟩ ⟨[0, 1], [3, 4]⟩ (by decide)).1

/-- C5: on same-length but elementwise-different frequency axes, `__add__`
raises `ValueError` (returns no result); in particular for `[0,1,2]` vs
`[0,1,3]`. -/
theorem spec_C5_incompatible_axes (a b : PhononDos)
    (_hlen : a.frequencies.length = b.frequencies.length)
    (hne : a.frequencies ≠ b.frequencies) :
    a.add b = none ∧
      (⟨[0, 1, 2], [1, 1, 1]⟩ : PhononDos).add ⟨[0, 1, 3], [1, 1, 1]⟩ = none := by
  exact ⟨by simp [PhononDos.add, hne], by decide⟩

/-- Witness for C5 at the concrete axes `[0,1,2]` and `[0,1,3]`. -/
theorem spec_C5_witness :
    (⟨[0, 1, 2], [1, 1, 1]⟩ : PhononDos).add ⟨[0, 1, 3], [1, 1, 1]⟩ = none :=
  (spec_C5_incompatible_axes ⟨[0, 1, 2], [1, 1, 1]⟩ ⟨[0, 1, 3], [1, 1, 1]⟩
    (by decide) (by decide)).1

/-- C8: `IsingModel.get_energy` is the sum over every ordered pair `(i, j)`
with `j` listed as a neighbor of `i` of
`coupling * spin(i) * spin(j) / distance^2`, and a missing spin attribute
silently contributes spin `0`. -/
theorem spec_C8_ising_energy (m : IsingModel) (st : IsingStructure) :
    m.get_energy st = isingPairSum m st ∧ spinOf none = 0 := by
  refine ⟨?_, rfl⟩
  rw [IsingModel.get_energy, isingPairSum]
  generalize st.spins.zip st.all_nn = l
  induction l with
  | nil => rfl
  | cons p t ih =>
    simp [List.flatMap_cons, List.map_append, List.sum_append, List.map_map,
      Function.comp_def, ih]

/-- C9: `get_smeared_densities` fails (`ZeroDivisionError` on the empty list
of consecutive differences) on fewer than two frequency points and returns an
array on two or more. -/
theorem spec_C9_smearing (gaussianFilter1d : List ℚ → ℚ → List ℚ) (d : PhononDos)
    (sigma : ℚ) :
    (d.frequencies.length < 2 → d.get_smeared_densities gaussianFilter1d sigma = none) ∧
      (2 ≤ d.frequencies.length →
        ∃ out, d.get_smeared_densities gaussianFilter1d sigma = some out) := by
  have hlen : (List.zipWith (· - ·) d.frequencies.tail d.frequencies).length
      = d.frequencies.length - 1 := by
    rw [List.length_zipWith, List.length_tail]
    omega
  constructor
  · intro h
    have h0 : (List.zipWith (· - ·) d.frequencies.tail d.frequencies).length = 0 := by
      rw [hlen]; omega
    simp [PhononDos.get_smeared_densities, h0]
  · intro h
    have h0 : ¬ (List.zipWith (· - ·) d.frequencies.tail d.frequencies).length = 0 := by
      rw [hlen]; omega
    refine ⟨gaussianFilter1d d.densities
      (sigma / ((List.zipWith (· - ·) d.frequencies.tail d.frequencies).sum /
        ((List.zipWith (· - ·) d.frequencies.tail d.frequencies).length : ℚ))), ?_⟩
    simp only [PhononDos.get_smeared_densities]
    rw [if_neg h0]

/-- Witness for C9: a one-point DOS fails, a two-point DOS succeeds. -/
theorem spec_C9_witness :
    (⟨[0], [1]⟩ : PhononDos).get_smeared_densities (fun dens _ => dens) 1 = none ∧
      ∃ out, (⟨[0, 1], [1, 2]⟩ : PhononDos).get_smeared_densities
        (fun dens _ => dens) 1 = some out :=
  ⟨(spec_C9_smearing (fun dens _ => dens) ⟨[0], [1]⟩ 1).1 (by decide),
   (spec_C9_smearing (fun dens _ => dens) ⟨[0, 1], [1, 2]⟩ 1).2 (by decide)⟩

/-- C10: adding two `CompletePhononDos` with identical frequency axes goes
through the inherited `PhononDos.__add__` and yields a plain `PhononDos`
(the result type carries no structure reference and no per-site mapping)
holding the shared axis and the summed total densities. -/
theorem spec_C10_complete_add (ca cb : CompletePhononDos)
    (h : ca.frequencies = cb.frequencies) :
    ca.add cb =
      some (⟨ca.frequencies, List.zipWith (· + ·) ca.densities cb.densities⟩ : PhononDos) := by
  simp [CompletePhononDos.add, CompletePhononDos.toPhononDos, PhononDos.add, h]

/-- Witness for C10 at concrete complete DOS objects. -/
theorem spec_C10_witness :
    (⟨⟨[⟨0⟩], ⟨1, 1⟩⟩, [0, 1], [1, 1], [(⟨0⟩, [1, 1])]⟩ : CompletePhononDos).add
        ⟨⟨[⟨0⟩], ⟨1, 1⟩⟩, [0, 1], [2, 2], [(⟨0⟩, [2, 2])]⟩ =
      some ⟨[0, 1], List.zipWith (· + ·) [1, 1] [2, 2]⟩ :=
  spec_C10_complete_add ⟨⟨[⟨0⟩], ⟨1, 1⟩⟩, [0, 1], [1, 1], [(⟨0⟩, [1, 1])]⟩
    ⟨⟨[⟨0⟩], ⟨1, 1⟩⟩, [0, 1], [2, 2], [(⟨0⟩, [2, 2])]⟩ rfl

/-- C1: on an ascending frequency axis with at least one non-negative
frequency, `zero_point_energy()` with no structure argument succeeds and
equals `0.5 * trapz(f * rho(f)) * THZ_TO_J * Avogadro` over the sub-arrays
from `ind_zero_freq` onward; in particular, for frequencies `[-1, 0, 1, 2]`
and densities `[0, 0, 2, 2]` the integration runs over frequencies
`[0, 1, 2]` with densities `[0, 2, 2]`. -/
theorem spec_C1_zero_point_energy (d : PhononDos) (hs : d.frequencies.Sorted (· ≤ ·))
    (hpos : ∃ f ∈ d.frequencies, 0 ≤ f) :
    (∃ ind, d.ind_zero_freq = some ind ∧
        d.zero_point_energy none =
          some (1 / 2 *
            trapz (List.zipWith (· * ·) (d.frequencies.drop ind) (d.densities.drop ind))
              (d.frequencies.drop ind) * (THZ_TO_J * AVOGADRO))) ∧
      (⟨[-1, 0, 1, 2], [0, 0, 2, 2]⟩ : PhononDos).positive_frequencies = some [0, 1, 2] ∧
      (⟨[-1, 0, 1, 2], [0, 0, 2, 2]⟩ : PhononDos).positive_densities = some [0, 2, 2] ∧
      (⟨[-1, 0, 1, 2], [0, 0, 2, 2]⟩ : PhononDos).zero_point_energy none =
        some (1 / 2 * trapz (List.zipWith (· * ·) [0, 1, 2] [0, 2, 2]) [0, 1, 2] *
          (THZ_TO_J * AVOGADRO)) := by
  obtain ⟨f, hf, hf0⟩ := hpos
  have h := d.ind_zero_freq_eq_some hs hf hf0
  have hind : (⟨[-1, 0, 1, 2], [0, 0, 2, 2]⟩ : PhononDos).ind_zero_freq = some 1 := by
    decide
  refine ⟨⟨_, h, by simp [PhononDos.zero_point_energy, h, applyStructure]⟩,
    by decide, by decide, ?_⟩
  norm_num [PhononDos.zero_point_energy, hind, applyStructure, trapz]

/-- Witness for C1 at the concrete scenario DOS. -/
theorem spec_C1_witness :
    ∃ ind, (⟨[-1, 0, 1, 2], [0, 0, 2, 2]⟩ : PhononDos).ind_zero_freq = some ind ∧
      (⟨[-1, 0, 1, 2], [0, 0, 2, 2]⟩ : PhononDos).zero_point_energy none =
        some (1 / 2 *
          trapz (List.zipWith (· * ·) (List.drop ind [-1, 0, 1, 2])
            (List.drop ind [0, 0, 2, 2])) (List.drop ind [-1, 0, 1, 2]) *
          (THZ_TO_J * AVOGADRO)) :=
  (spec_C1_zero_point_energy ⟨[-1, 0, 1, 2], [0, 0, 2, 2]⟩ (by decide) (by decide)).1

/-- C6: on an ascending axis, `ind_zero_freq` is the first index with a
non-negative frequency and the positive sub-arrays start there; when every
frequency is negative, `ind_zero_freq`, both positive sub-arrays, the four
temperature-dependent methods at `T > 0` and `zero_point_energy` all raise. -/
theorem spec_C6_no_positive_frequencies (d : PhononDos)
    (hs : d.frequencies.Sorted (· ≤ ·)) :
    (∀ ind, d.ind_zero_freq = some ind →
        ind < d.frequencies.length ∧ 0 ≤ d.frequencies.getD ind 0 ∧
          (∀ k, k < ind → d.frequencies.getD k 0 < 0) ∧
          d.positive_frequencies = some (d.frequencies.drop ind) ∧
          d.positive_densities = some (d.densities.drop ind)) ∧
      ((∀ f ∈ d.frequencies, f < 0) →
        d.ind_zero_freq = none ∧ d.positive_frequencies = none ∧
          d.positive_densities = none ∧
          ∀ fns t st, 0 < t →
            d.cv fns t st = none ∧ d.entropy fns t st = none ∧
              d.internal_energy fns t st = none ∧
              d.helmholtz_free_energy fns t st = none ∧
              d.zero_point_energy st = none) := by
  constructor
  · intro ind h
    obtain ⟨h1, h2, h3⟩ := d.ind_zero_freq_first hs h
    exact ⟨h1, h2, h3, by simp [PhononDos.positive_frequencies, h],
      by simp [PhononDos.positive_densities, h]⟩
  · intro hneg
    have h := d.ind_zero_freq_eq_none hs hneg
    refine ⟨h, by simp [PhononDos.positive_frequencies, h],
      by simp [PhononDos.positive_densities, h], ?_⟩
    intro fns t st ht
    have ht' : ¬ t = 0 := ne_of_gt ht
    refine ⟨?_, ?_, ?_, ?_, ?_⟩ <;>
      simp [PhononDos.cv, PhononDos.entropy, PhononDos.internal_energy,
        PhononDos.helmholtz_free_energy, PhononDos.zero_point_energy, h, ht']

/-- Witness for C6: an all-negative spectrum makes the thermodynamic queries
raise. -/
theorem spec_C6_witness :
    (⟨[-2, -1], [1, 1]⟩ : PhononDos).cv ⟨id, id, id⟩ 300 none = none ∧
      (⟨[-2, -1], [1, 1]⟩ : PhononDos).zero_point_energy none = none := by
  have h := (spec_C6_no_positive_frequencies ⟨[-2, -1], [1, 1]⟩ (by decide)).2 (by decide)
  have h2 := h.2.2.2 ⟨id, id, id⟩ 300 none (by norm_num)
  exact ⟨h2.1, h2.2.2.2.2⟩

/-- C7: `from_dict ∘ as_dict` preserves a `PhononDos` exactly; on a
`CompletePhononDos` whose pdos mapping is keyed by the structure's (distinct)
sites in site order, it preserves the structure and every per-site density
sequence, the pdos lists being re-zipped positionally with the sites. -/
theorem spec_C7_round_trip :
    (∀ d : PhononDos, PhononDos.from_dict d.as_dict = d) ∧
      ∀ cd : CompletePhononDos, cd.pdos.map Prod.fst = cd.struct.sites →
        cd.struct.sites.Nodup →
        cd.as_dict.map CompletePhononDos.from_dict = some cd := by
  constructor
  · intro d; rfl
  · rintro ⟨s, fr, de, pd⟩ hkeys hnd
    dsimp only at hkeys hnd ⊢
    have hnd' : (pd.map Prod.fst).Nodup := by rw [hkeys]; exact hnd
    by_cases hp : pd.length > 0
    · have hlook := lookupAll_eq_of_keys pd hnd' pd (fun p hmem => hmem)
      simp only [CompletePhononDos.as_dict, CompletePhononDos.from_dict]
      rw [if_pos hp, ← hkeys, hlook]
      simp only [Option.map_some', CompletePhononDos.from_dict]
      rw [← hkeys, zip_map_fst_snd']
    · have hp0 : pd = [] := List.length_eq_zero.mp (by omega)
      subst hp0
      have hsites : s.sites = [] := by rw [← hkeys]; rfl
      simp [CompletePhononDos.as_dict, CompletePhononDos.from_dict, hsites]

/-- Witness for C7 at a concrete two-site complete DOS. -/
theorem spec_C7_witness :
    ((⟨⟨[⟨0⟩, ⟨1⟩], ⟨2, 1⟩⟩, [0, 1], [2, 3],
        [(⟨0⟩, [1, 1]), (⟨1⟩, [1, 2])]⟩ : CompletePhononDos).as_dict).map
      CompletePhononDos.from_dict =
      some ⟨⟨[⟨0⟩, ⟨1⟩], ⟨2, 1⟩⟩, [0, 1], [2, 3], [(⟨0⟩, [1, 1]), (⟨1⟩, [1, 2])]⟩ :=
  spec_C7_round_trip.2 _ (by decide) (by decide)
